import Mathlib

/-!
Verification of the fuzzy-logic compatibility scorer (`src/app.py`).

The program defines triangular membership functions over discretized
universes, four groups of Mamdani-style fuzzy rules (AND = min,
aggregation = max, centroid defuzzification) for one output variable
`compatibility` over the universe 0..100, and averages the four group
scores into an overall compatibility score.  All numeric computation is
embedded over `ℚ`.
-/

/-- Triangular membership function, following `skfuzzy.trimf`: value 1 at
the peak `b`, rising linearly on `(a, b)`, falling linearly on `(b, c)`,
and 0 everywhere else.  The library requires `a ≤ b ≤ c` at construction. -/
def trimf (a b c x : ℚ) : ℚ :=
  if x = b then 1
  else if a < x ∧ x < b then (x - a) / (b - a)
  else if b < x ∧ x < c then (c - x) / (c - b)
  else 0

/-- A fuzzy category: the three breakpoints of its triangular membership
function, as passed to `fuzz.trimf` in `src/app.py`. -/
structure Category where
  a : ℚ
  b : ℚ
  c : ℚ
deriving DecidableEq

/-- Membership degree of a crisp value in a category.
Modelled from the spec: fuzzification evaluates each category's membership
function at the crisp value (§4.2); this coincides with the library's
interpolation of the sampled function at every universe grid point. -/
def memb (t : Category) (x : ℚ) : ℚ := trimf t.a t.b t.c x

/- Output variable `compatibility` (app.py lines 19-22), universe
`np.arange(0, 101, 1)` = 0..100. -/

/-- `compatibility['low'] = fuzz.trimf(..., [0, 25, 50])` -/
def comp_low : Category := ⟨0, 25, 50⟩

/-- `compatibility['medium'] = fuzz.trimf(..., [25, 50, 75])` -/
def comp_medium : Category := ⟨25, 50, 75⟩

/-- `compatibility['high'] = fuzz.trimf(..., [50, 75, 100])` -/
def comp_high : Category := ⟨50, 75, 100⟩

/-- The discretized output universe `np.arange(0, 101, 1)`: the integers
0 through 100. -/
def compatUniverse : List ℚ := (List.range 101).map (fun n : ℕ => (n : ℚ))

/- Antecedent variables (app.py lines 25-56). -/

/-- `skin_colour['light']` -/
def skin_light : Category := ⟨0, 25, 50⟩
/-- `skin_colour['medium']` -/
def skin_medium : Category := ⟨25, 50, 75⟩
/-- `skin_colour['dark']` -/
def skin_dark : Category := ⟨50, 75, 100⟩

/-- `hair_colour['blonde']` -/
def hair_blonde : Category := ⟨0, 25, 50⟩
/-- `hair_colour['brown']` -/
def hair_brown : Category := ⟨25, 50, 75⟩
/-- `hair_colour['black']` -/
def hair_black : Category := ⟨50, 75, 100⟩

/-- The discretized height universe `np.arange(120, 220, 1)`: the integers
120 through 219 (220 is excluded by `np.arange`). -/
def heightUniverse : List ℚ := (List.range 100).map (fun n : ℕ => ((120 + n : ℕ) : ℚ))

/-- `height['short'] = fuzz.trimf(..., [120, 150, 170])` -/
def height_short : Category := ⟨120, 150, 170⟩
/-- `height['average'] = fuzz.trimf(..., [150, 170, 190])` -/
def height_average : Category := ⟨150, 170, 190⟩
/-- `height['tall'] = fuzz.trimf(..., [170, 190, 220])` -/
def height_tall : Category := ⟨170, 190, 220⟩

/-- `temperament['calm']` -/
def temperament_calm : Category := ⟨0, 25, 50⟩
/-- `temperament['balanced']` -/
def temperament_balanced : Category := ⟨25, 50, 75⟩
/-- `temperament['angry']` -/
def temperament_angry : Category := ⟨50, 75, 100⟩

/-- `blood_group['A']` -/
def blood_A : Category := ⟨0, 25, 50⟩
/-- `blood_group['B']` -/
def blood_B : Category := ⟨25, 50, 75⟩
/-- `blood_group['O']` -/
def blood_O : Category := ⟨50, 75, 100⟩

/-- `educational_level['low']` -/
def educ_low : Category := ⟨0, 25, 50⟩
/-- `educational_level['medium']` -/
def educ_medium : Category := ⟨25, 50, 75⟩
/-- `educational_level['high']` -/
def educ_high : Category := ⟨50, 75, 100⟩

/-- Binary minimum, as computed by `np.fmin` on the membership arrays. -/
def fmin (x y : ℚ) : ℚ := if x ≤ y then x else y

/-- Binary maximum, as computed by `np.fmax` on the membership arrays. -/
def fmax (x y : ℚ) : ℚ := if x ≤ y then y else x

/-- The three categories of the output variable `compatibility`. -/
inductive OutCat where
  | low
  | medium
  | high
deriving DecidableEq

/-- Membership function of an output category (app.py lines 20-22). -/
def outMemb : OutCat → ℚ → ℚ
  | .low => memb comp_low
  | .medium => memb comp_medium
  | .high => memb comp_high

/-- An antecedent expression: a `(variable, category)` membership term, or a
fuzzy conjunction `&` of two antecedents, as built by `ctrl.Rule`'s first
argument in app.py lines 59-76.  `I` is the type of the group's crisp
inputs. -/
inductive AntExpr (I : Type) where
  | term : (I → ℚ) → AntExpr I
  | and : AntExpr I → AntExpr I → AntExpr I

/-- Firing strength of an antecedent expression at a crisp input.
Modelled from the spec: fuzzy AND = min (§4.4 step 3), as the library's
`&` operator computes. -/
def AntExpr.eval {I : Type} : AntExpr I → I → ℚ
  | .term f, inp => f inp
  | .and p q, inp => fmin (p.eval inp) (q.eval inp)

/-- The membership-degree terms referenced by an antecedent, in order. -/
def AntExpr.terms {I : Type} : AntExpr I → List (I → ℚ)
  | .term f => [f]
  | .and p q => p.terms ++ q.terms

/-- A fuzzy rule `ctrl.Rule(antecedent, compatibility[cat])`: all rules in
app.py output into the `compatibility` variable. -/
structure FRule (I : Type) where
  antecedent : AntExpr I
  consequent : OutCat

/-- A rule's firing strength at a crisp input (spec §4.4 step 3). -/
def FRule.strength {I : Type} (r : FRule I) (inp : I) : ℚ :=
  r.antecedent.eval inp

/-- Crisp inputs of the morphological group:
`(skin_colour, hair_colour, height)`. -/
abbrev MorphIn : Type := ℚ × ℚ × ℚ

/-- `rule_skin_light` (app.py line 59):
`skin_colour['light'] & hair_colour['blonde'] & height['tall'] → compatibility['high']`. -/
def rule_skin_light : FRule MorphIn :=
  ⟨.and (.and (.term fun i => memb skin_light i.1)
              (.term fun i => memb hair_blonde i.2.1))
        (.term fun i => memb height_tall i.2.2), .high⟩

/-- `rule_skin_medium` (app.py line 60). -/
def rule_skin_medium : FRule MorphIn :=
  ⟨.and (.and (.term fun i => memb skin_medium i.1)
              (.term fun i => memb hair_brown i.2.1))
        (.term fun i => memb height_average i.2.2), .medium⟩

/-- `rule_skin_dark` (app.py line 61). -/
def rule_skin_dark : FRule MorphIn :=
  ⟨.and (.and (.term fun i => memb skin_dark i.1)
              (.term fun i => memb hair_black i.2.1))
        (.term fun i => memb height_short i.2.2), .low⟩

/-- `rule_calm` (app.py line 64): `temperament['calm'] → compatibility['high']`. -/
def rule_calm : FRule ℚ := ⟨.term (memb temperament_calm), .high⟩
/-- `rule_balanced` (app.py line 65). -/
def rule_balanced : FRule ℚ := ⟨.term (memb temperament_balanced), .medium⟩
/-- `rule_angry` (app.py line 66). -/
def rule_angry : FRule ℚ := ⟨.term (memb temperament_angry), .low⟩

/-- `rule_blood_A` (app.py line 69): `blood_group['A'] → compatibility['high']`. -/
def rule_blood_A : FRule ℚ := ⟨.term (memb blood_A), .high⟩
/-- `rule_blood_B` (app.py line 70). -/
def rule_blood_B : FRule ℚ := ⟨.term (memb blood_B), .medium⟩
/-- `rule_blood_O` (app.py line 71). -/
def rule_blood_O : FRule ℚ := ⟨.term (memb blood_O), .low⟩

/-- `rule_educ_low` (app.py line 74): `educational_level['low'] → compatibility['low']`. -/
def rule_educ_low : FRule ℚ := ⟨.term (memb educ_low), .low⟩
/-- `rule_educ_medium` (app.py line 75). -/
def rule_educ_medium : FRule ℚ := ⟨.term (memb educ_medium), .medium⟩
/-- `rule_educ_high` (app.py line 76). -/
def rule_educ_high : FRule ℚ := ⟨.term (memb educ_high), .high⟩

/-- `compatibility_morphological_ctrl` (app.py line 79). -/
def morphologicalRules : List (FRule MorphIn) :=
  [rule_skin_light, rule_skin_medium, rule_skin_dark]

/-- `compatibility_psychological_ctrl` (app.py line 80). -/
def psychologicalRules : List (FRule ℚ) :=
  [rule_calm, rule_balanced, rule_angry]

/-- `compatibility_medical_ctrl` (app.py line 81). -/
def medicalRules : List (FRule ℚ) :=
  [rule_blood_A, rule_blood_B, rule_blood_O]

/-- `compatibility_salary_ctrl` (app.py line 82). -/
def salaryRules : List (FRule ℚ) :=
  [rule_educ_low, rule_educ_medium, rule_educ_high]

/-- Aggregated strength of one output category: the maximum firing strength
over the rules whose consequent is that category, 0 when no rule votes for
it.  Modelled from the spec: fuzzy OR = max across rules (§4.4 step 4). -/
def aggregatedStrength {I : Type} (rules : List (FRule I)) (inp : I)
    (cat : OutCat) : ℚ :=
  (rules.map (fun r => if r.consequent = cat then r.strength inp else 0)).foldr fmax 0

/-- Height of the aggregated implied fuzzy set at an output-domain point
`y`: max over output categories of `min(category mf at y, aggregated
strength)`.  Modelled from the spec: min-implication + max-aggregation
(§4.4 step 5). -/
def impliedHeight {I : Type} (rules : List (FRule I)) (inp : I) (y : ℚ) : ℚ :=
  fmax (fmax (fmin (outMemb .low y) (aggregatedStrength rules inp .low))
             (fmin (outMemb .medium y) (aggregatedStrength rules inp .medium)))
       (fmin (outMemb .high y) (aggregatedStrength rules inp .high))

/-- Centroid defuzzification over a discretized universe.  Modelled from
the spec: the weighted mean of `y` weighted by the implied-set height
(§4.4 step 5).  When the implied set sums to zero the library's `defuzz`
asserts `Total area is zero` and `ControlSystemSimulation.compute` raises
`ValueError` (spec §9 records that the original raises here), modelled as
`none`. -/
def centroid (u : List ℚ) (w : ℚ → ℚ) : Option ℚ :=
  if (u.map w).sum = 0 then none
  else some ((u.map (fun y => y * w y)).sum / (u.map w).sum)

/-- One rule group's inference: `ControlSystemSimulation(...).compute()`
followed by reading `output['compatibility']` — fuzzify, fire the rules,
aggregate, and defuzzify over the 0..100 compatibility universe. -/
def infer {I : Type} (rules : List (FRule I)) (inp : I) : Option ℚ :=
  centroid compatUniverse (impliedHeight rules inp)

/-- `compute_compatibility_score` (app.py lines 84-121): run the four
group simulations on the six inputs and average the four crisp outputs;
`none` when any group's defuzzification fails. -/
def compute_compatibility_score (skin_color hair_color height temperament
    blood_group educational_level : ℚ) : Option ℚ := do
  let m ← infer morphologicalRules (skin_color, hair_color, height)
  let p ← infer psychologicalRules temperament
  let md ← infer medicalRules blood_group
  let s ← infer salaryRules educational_level
  pure ((m + p + md + s) / 4)

/-- The couple verdict printed by the driver (app.py lines 147-150):
`High` when both scores are `>= 50`, else `Low`. -/
def coupleVerdict (scoreA scoreB : ℚ) : String :=
  if 50 ≤ scoreA ∧ 50 ≤ scoreB then "High" else "Low"

/-! ### Basic facts about the triangular membership function -/

theorem trimf_nonneg (a b c x : ℚ) : 0 ≤ trimf a b c x := by
  unfold trimf
  split_ifs with h1 h2 h3
  · norm_num
  · exact div_nonneg (by linarith [h2.1]) (by linarith [h2.1, h2.2])
  · exact div_nonneg (by linarith [h3.2]) (by linarith [h3.1, h3.2])
  · exact le_refl 0

theorem trimf_le_one (a b c x : ℚ) : trimf a b c x ≤ 1 := by
  unfold trimf
  split_ifs with h1 h2 h3
  · exact le_refl 1
  · rw [div_le_one (by linarith [h2.1, h2.2])]
    linarith [h2.2]
  · rw [div_le_one (by linarith [h3.1, h3.2])]
    linarith [h3.1]
  · norm_num

theorem trimf_peak (a b c : ℚ) : trimf a b c b = 1 := by
  simp [trimf]

theorem trimf_zero_left (a b c x : ℚ) (hab' : a ≤ b) (hab : a ≠ b)
    (hx : x ≤ a) : trimf a b c x = 0 := by
  have hlt : a < b := lt_of_le_of_ne hab' hab
  unfold trimf
  split_ifs with h1 h2 h3
  · exfalso; linarith [h1 ▸ hx]
  · exfalso; linarith [h2.1]
  · exfalso; linarith [h3.1]
  · rfl

theorem trimf_zero_right (a b c x : ℚ) (hbc' : b ≤ c) (hbc : b ≠ c)
    (hx : c ≤ x) : trimf a b c x = 0 := by
  have hlt : b < c := lt_of_le_of_ne hbc' hbc
  unfold trimf
  split_ifs with h1 h2 h3
  · exfalso; rw [h1] at hx; linarith
  · exfalso; linarith [h2.2]
  · exfalso; linarith [h3.2]
  · rfl

theorem trimf_mono (a b c x y : ℚ) (hax : a ≤ x) (hxy : x ≤ y)
    (hyb : y ≤ b) : trimf a b c x ≤ trimf a b c y := by
  rcases eq_or_lt_of_le hyb with heq | hyb'
  · rw [heq, trimf_peak]
    exact trimf_le_one a b c x
  · have hxb : x < b := lt_of_le_of_lt hxy hyb'
    have hxne : x ≠ b := ne_of_lt hxb
    have hyne : y ≠ b := ne_of_lt hyb'
    by_cases hay : a < y
    · have hty : trimf a b c y = (y - a) / (b - a) := by
        unfold trimf
        rw [if_neg hyne, if_pos ⟨hay, hyb'⟩]
      by_cases hax' : a < x
      · have htx : trimf a b c x = (x - a) / (b - a) := by
          unfold trimf
          rw [if_neg hxne, if_pos ⟨hax', hxb⟩]
        rw [htx, hty, div_le_div_iff_of_pos_right (by linarith : (0:ℚ) < b - a)]
        linarith
      · have hxa : x = a := le_antisymm (not_lt.mp hax') hax
        have htx : trimf a b c x = 0 := by
          unfold trimf
          rw [if_neg hxne, if_neg (by rw [hxa]; simp), if_neg (by intro hc; linarith [hc.1, hxa ▸ hxb])]
        rw [htx, hty]
        exact div_nonneg (by linarith) (by linarith)
    · have hya : y ≤ a := not_lt.mp hay
      have hxy' : x = y := le_antisymm hxy (by linarith)
      rw [hxy']

theorem trimf_anti (a b c x y : ℚ) (hbx : b ≤ x) (hxy : x ≤ y)
    (hyc : y ≤ c) : trimf a b c y ≤ trimf a b c x := by
  rcases eq_or_lt_of_le hbx with heq | hbx'
  · rw [← heq, trimf_peak]
    exact trimf_le_one a b c y
  · have hby : b < y := lt_of_lt_of_le hbx' hxy
    have hxne : x ≠ b := (ne_of_lt hbx').symm
    have hyne : y ≠ b := (ne_of_lt hby).symm
    by_cases hxc : x < c
    · have htx : trimf a b c x = (c - x) / (c - b) := by
        unfold trimf
        rw [if_neg hxne, if_neg (by intro hc; linarith [hc.2]), if_pos ⟨hbx', hxc⟩]
      by_cases hyc' : y < c
      · have hty : trimf a b c y = (c - y) / (c - b) := by
          unfold trimf
          rw [if_neg hyne, if_neg (by intro hc; linarith [hc.2]), if_pos ⟨hby, hyc'⟩]
        rw [htx, hty, div_le_div_iff_of_pos_right (by linarith : (0:ℚ) < c - b)]
        linarith
      · have hyc'' : y = c := le_antisymm hyc (not_lt.mp hyc')
        have hty : trimf a b c y = 0 := by
          unfold trimf
          rw [if_neg hyne, if_neg (by intro hc; linarith [hc.2]), if_neg (by intro hc; linarith [hc.2, hyc''.ge])]
        rw [hty, htx]
        exact div_nonneg (by linarith) (by linarith)
    · have hxc' : x = c := le_antisymm (by linarith) (not_lt.mp hxc)
      have hyx : y = x := le_antisymm (by linarith [hxc'.ge]) hxy
      rw [hyx]

/-! ### Facts about rule evaluation, aggregation and defuzzification -/

theorem fmin_eq_min (x y : ℚ) : fmin x y = min x y := (min_def x y).symm

theorem fmax_eq_max (x y : ℚ) : fmax x y = max x y := (max_def x y).symm

theorem memb_nonneg (t : Category) (x : ℚ) : 0 ≤ memb t x :=
  trimf_nonneg t.a t.b t.c x

theorem outMemb_nonneg (cat : OutCat) (y : ℚ) : 0 ≤ outMemb cat y := by
  cases cat <;> exact memb_nonneg _ y

theorem AntExpr.eval_le_terms {I : Type} (e : AntExpr I) (inp : I) :
    ∀ d ∈ e.terms.map (fun f => f inp), e.eval inp ≤ d := by
  induction e with
  | term f => simp [eval, terms]
  | and p q ihp ihq =>
    intro d hd
    simp only [terms, List.map_append, List.mem_append] at hd
    rw [show (AntExpr.and p q).eval inp = fmin (p.eval inp) (q.eval inp) from rfl,
      fmin_eq_min]
    rcases hd with hd | hd
    · exact le_trans (min_le_left _ _) (ihp d hd)
    · exact le_trans (min_le_right _ _) (ihq d hd)

theorem AntExpr.eval_mem_terms {I : Type} (e : AntExpr I) (inp : I) :
    e.eval inp ∈ e.terms.map (fun f => f inp) := by
  induction e with
  | term f => simp [eval, terms]
  | and p q ihp ihq =>
    rw [show (AntExpr.and p q).eval inp = fmin (p.eval inp) (q.eval inp) from rfl,
      fmin_eq_min]
    simp only [terms, List.map_append, List.mem_append]
    rcases min_cases (p.eval inp) (q.eval inp) with ⟨h, _⟩ | ⟨h, _⟩
    · rw [h]; exact Or.inl ihp
    · rw [h]; exact Or.inr ihq

theorem foldr_fmax_nonneg (l : List ℚ) : 0 ≤ l.foldr fmax 0 := by
  induction l with
  | nil => exact le_refl 0
  | cons x xs ih =>
    rw [List.foldr_cons, fmax_eq_max]
    exact le_trans ih (le_max_right x _)

theorem foldr_fmax_perm {l l' : List ℚ} (h : l.Perm l') (init : ℚ) :
    l.foldr fmax init = l'.foldr fmax init := by
  induction h with
  | nil => rfl
  | cons x _ ih => simp only [List.foldr_cons, ih]
  | swap x y l =>
    simp only [List.foldr_cons, fmax_eq_max, max_left_comm]
  | trans _ _ ih1 ih2 => rw [ih1, ih2]

theorem aggregatedStrength_nonneg {I : Type} (rules : List (FRule I))
    (inp : I) (cat : OutCat) : 0 ≤ aggregatedStrength rules inp cat :=
  foldr_fmax_nonneg _

theorem aggregatedStrength_perm {I : Type} {rules rules' : List (FRule I)}
    (h : rules.Perm rules') (inp : I) (cat : OutCat) :
    aggregatedStrength rules inp cat = aggregatedStrength rules' inp cat :=
  foldr_fmax_perm (h.map _) 0

theorem impliedHeight_nonneg {I : Type} (rules : List (FRule I)) (inp : I)
    (y : ℚ) : 0 ≤ impliedHeight rules inp y := by
  unfold impliedHeight
  rw [fmax_eq_max, fmin_eq_min]
  exact le_trans (le_min (outMemb_nonneg .high y) (aggregatedStrength_nonneg rules inp .high))
    (le_max_right _ _)

theorem impliedHeight_perm {I : Type} {rules rules' : List (FRule I)}
    (h : rules.Perm rules') (inp : I) (y : ℚ) :
    impliedHeight rules inp y = impliedHeight rules' inp y := by
  unfold impliedHeight
  rw [aggregatedStrength_perm h inp .low, aggregatedStrength_perm h inp .medium,
    aggregatedStrength_perm h inp .high]

theorem compatUniverse_bounds : ∀ y ∈ compatUniverse, 0 ≤ y ∧ y ≤ 100 := by
  intro y hy
  rw [compatUniverse, List.mem_map] at hy
  obtain ⟨n, hn, rfl⟩ := hy
  rw [List.mem_range] at hn
  constructor
  · exact Nat.cast_nonneg n
  · exact_mod_cast Nat.le_of_lt_succ hn

theorem centroid_mem_of_bounds (u : List ℚ) (w : ℚ → ℚ) (lo hi : ℚ)
    (hw : ∀ y ∈ u, 0 ≤ w y) (hy : ∀ y ∈ u, lo ≤ y ∧ y ≤ hi) (v : ℚ)
    (h : centroid u w = some v) : lo ≤ v ∧ v ≤ hi := by
  unfold centroid at h
  split_ifs at h with hz
  have hv : (u.map (fun y => y * w y)).sum / (u.map w).sum = v := Option.some.inj h
  have hden_nonneg : 0 ≤ (u.map w).sum := by
    apply List.sum_nonneg
    intro x hx
    obtain ⟨y, hym, rfl⟩ := List.mem_map.mp hx
    exact hw y hym
  have hden_pos : 0 < (u.map w).sum := lt_of_le_of_ne hden_nonneg (Ne.symm hz)
  have hnum_lo : lo * (u.map w).sum ≤ (u.map (fun y => y * w y)).sum := by
    rw [← List.sum_map_mul_left]
    exact List.sum_le_sum fun y hym => mul_le_mul_of_nonneg_right (hy y hym).1 (hw y hym)
  have hnum_hi : (u.map (fun y => y * w y)).sum ≤ hi * (u.map w).sum := by
    rw [← List.sum_map_mul_left]
    exact List.sum_le_sum fun y hym => mul_le_mul_of_nonneg_right (hy y hym).2 (hw y hym)
  constructor
  · rw [← hv, le_div_iff₀ hden_pos]
    exact hnum_lo
  · rw [← hv, div_le_iff₀ hden_pos]
    exact hnum_hi

theorem infer_mem_Icc {I : Type} (rules : List (FRule I)) (inp : I) (v : ℚ)
    (h : infer rules inp = some v) : 0 ≤ v ∧ v ≤ 100 :=
  centroid_mem_of_bounds _ _ 0 100 (fun y _ => impliedHeight_nonneg rules inp y)
    compatUniverse_bounds v h

theorem memb_le_one (t : Category) (x : ℚ) : memb t x ≤ 1 :=
  trimf_le_one t.a t.b t.c x

theorem outMemb_le_one (cat : OutCat) (y : ℚ) : outMemb cat y ≤ 1 := by
  cases cat <;> exact memb_le_one _ y

theorem foldr_fmax_eq_zero {l : List ℚ} (h : ∀ x ∈ l, x = 0) :
    l.foldr fmax 0 = 0 := by
  induction l with
  | nil => rfl
  | cons x xs ih =>
    rw [List.foldr_cons, h x (List.mem_cons_self x xs),
      ih (fun y hy => h y (List.mem_cons_of_mem x hy)), fmax_eq_max, max_self]

theorem aggregatedStrength_eq_zero {I : Type} {rules : List (FRule I)} {inp : I}
    (h : ∀ r ∈ rules, r.strength inp = 0) (cat : OutCat) :
    aggregatedStrength rules inp cat = 0 := by
  apply foldr_fmax_eq_zero
  intro x hx
  obtain ⟨r, hr, rfl⟩ := List.mem_map.mp hx
  by_cases hc : r.consequent = cat
  · rw [if_pos hc]
    exact h r hr
  · rw [if_neg hc]

theorem impliedHeight_eq_zero {I : Type} {rules : List (FRule I)} {inp : I}
    (h : ∀ r ∈ rules, r.strength inp = 0) (y : ℚ) :
    impliedHeight rules inp y = 0 := by
  unfold impliedHeight
  rw [aggregatedStrength_eq_zero h, aggregatedStrength_eq_zero h,
    aggregatedStrength_eq_zero h, fmin_eq_min, fmin_eq_min, fmin_eq_min,
    fmax_eq_max, fmax_eq_max, min_eq_right (outMemb_nonneg _ y),
    min_eq_right (outMemb_nonneg _ y), min_eq_right (outMemb_nonneg _ y),
    max_self, max_self]

theorem infer_zero_strengths_none {I : Type} (rules : List (FRule I)) (inp : I)
    (h : ∀ r ∈ rules, r.strength inp = 0) : infer rules inp = none := by
  have hs : (compatUniverse.map (impliedHeight rules inp)).sum = 0 :=
    List.sum_eq_zero fun x hx => by
      obtain ⟨y, hym, rfl⟩ := List.mem_map.mp hx
      exact impliedHeight_eq_zero h y
  simp [infer, centroid, hs]

theorem impliedHeight_high_only {I : Type} (rules : List (FRule I)) (inp : I)
    (hlo : aggregatedStrength rules inp .low = 0)
    (hmed : aggregatedStrength rules inp .medium = 0)
    (hhi : aggregatedStrength rules inp .high = 1) (y : ℚ) :
    impliedHeight rules inp y = memb comp_high y := by
  unfold impliedHeight
  rw [hlo, hmed, hhi, fmin_eq_min, fmin_eq_min, fmin_eq_min, fmax_eq_max,
    fmax_eq_max, min_eq_right (outMemb_nonneg _ y),
    min_eq_right (outMemb_nonneg _ y), min_eq_left (outMemb_le_one _ y),
    max_self, max_eq_right (outMemb_nonneg .high y)]
  rfl

theorem sum_memb_comp_high :
    (compatUniverse.map (fun y => memb comp_high y)).sum = 25 := by
  simp only [compatUniverse, memb, comp_high, trimf, List.range_succ,
    List.map_append, List.map_cons, List.map_nil, List.sum_append,
    List.sum_cons, List.sum_nil]
  norm_num

theorem moment_memb_comp_high :
    (compatUniverse.map (fun y => y * memb comp_high y)).sum = 1875 := by
  simp only [compatUniverse, memb, comp_high, trimf, List.range_succ,
    List.map_append, List.map_cons, List.map_nil, List.sum_append,
    List.sum_cons, List.sum_nil]
  norm_num

theorem infer_of_high_strength_one {I : Type} (rules : List (FRule I)) (inp : I)
    (hlo : aggregatedStrength rules inp .low = 0)
    (hmed : aggregatedStrength rules inp .medium = 0)
    (hhi : aggregatedStrength rules inp .high = 1) :
    infer rules inp = some 75 := by
  have hw : impliedHeight rules inp = fun y => memb comp_high y :=
    funext (impliedHeight_high_only rules inp hlo hmed hhi)
  unfold infer
  rw [hw]
  unfold centroid
  simp only [sum_memb_comp_high, moment_memb_comp_high]
  norm_num

theorem infer_psych_25 : infer psychologicalRules 25 = some 75 :=
  infer_of_high_strength_one _ _ (by decide) (by decide) (by decide)

theorem infer_morph_base : infer morphologicalRules (25, 25, 190) = some 75 :=
  infer_of_high_strength_one _ _ (by decide) (by decide) (by decide)

theorem infer_medical_25 : infer medicalRules 25 = some 75 :=
  infer_of_high_strength_one _ _ (by decide) (by decide) (by decide)

theorem infer_salary_75 : infer salaryRules 75 = some 75 :=
  infer_of_high_strength_one _ _ (by decide) (by decide) (by decide)

/-! ### Claim theorems -/

/-- C1 (amended): for every rule group and crisp input at which no rule
fires with nonzero strength, the inference produces no crisp value — the
library raises an error during defuzzification (`Total area is zero`)
instead of returning the midpoint 50 of the output domain. -/
theorem zero_aggregate_yields_no_output {I : Type} (rules : List (FRule I))
    (inp : I) (h : ∀ r ∈ rules, r.strength inp = 0) :
    infer rules inp = none :=
  infer_zero_strengths_none rules inp h

/-- C1 witness: at temperament 0 every psychological rule has zero firing
strength, and the psychological inference yields no output. -/
theorem zero_aggregate_yields_no_output_witness :
    infer psychologicalRules 0 = none :=
  zero_aggregate_yields_no_output psychologicalRules 0 (by decide)

/-- C1 counterexample: at the in-range input temperament = 0 the
psychological group's aggregated implied set is identically zero, yet the
inference does not return the midpoint 50 of the output domain — it
produces no crisp value at all. -/
theorem zero_aggregate_not_midpoint :
    ¬(infer psychologicalRules 0 = some 50) := by
  rw [infer_zero_strengths_none psychologicalRules 0 (by decide)]
  simp

/-- C2: whenever a rule group's inference produces a defuzzified crisp
score, that score lies within the output variable's declared domain
[0, 100]; stated for all four groups (morphological, psychological,
medical, salary) at arbitrary crisp inputs. -/
theorem group_scores_within_domain (skin hair ht temp blood educ v₁ v₂ v₃ v₄ : ℚ)
    (h₁ : infer morphologicalRules (skin, hair, ht) = some v₁)
    (h₂ : infer psychologicalRules temp = some v₂)
    (h₃ : infer medicalRules blood = some v₃)
    (h₄ : infer salaryRules educ = some v₄) :
    (0 ≤ v₁ ∧ v₁ ≤ 100) ∧ (0 ≤ v₂ ∧ v₂ ≤ 100) ∧
    (0 ≤ v₃ ∧ v₃ ≤ 100) ∧ (0 ≤ v₄ ∧ v₄ ≤ 100) :=
  ⟨infer_mem_Icc _ _ _ h₁, infer_mem_Icc _ _ _ h₂,
   infer_mem_Icc _ _ _ h₃, infer_mem_Icc _ _ _ h₄⟩

/-- C2 witness: at inputs (25, 25, 190, 25, 25, 75) all four group scores
are defined (each equal to 75) and lie within [0, 100]. -/
theorem group_scores_within_domain_witness :
    ((0:ℚ) ≤ 75 ∧ (75:ℚ) ≤ 100) ∧ ((0:ℚ) ≤ 75 ∧ (75:ℚ) ≤ 100) ∧
    ((0:ℚ) ≤ 75 ∧ (75:ℚ) ≤ 100) ∧ ((0:ℚ) ≤ 75 ∧ (75:ℚ) ≤ 100) :=
  group_scores_within_domain 25 25 190 25 25 75 75 75 75 75
    infer_morph_base infer_psych_25 infer_medical_25 infer_salary_75

/-- C3: the overall compatibility score equals the unweighted arithmetic
mean (sum divided by 4) of the four per-group crisp scores produced by
running the inference once per rule group. -/
theorem overall_score_is_mean_of_groups (skin hair ht temp blood educ m p md s : ℚ)
    (h₁ : infer morphologicalRules (skin, hair, ht) = some m)
    (h₂ : infer psychologicalRules temp = some p)
    (h₃ : infer medicalRules blood = some md)
    (h₄ : infer salaryRules educ = some s) :
    compute_compatibility_score skin hair ht temp blood educ =
      some ((m + p + md + s) / 4) := by
  simp [compute_compatibility_score, h₁, h₂, h₃, h₄]

/-- C3 witness: at inputs (25, 25, 190, 25, 25, 75) each group scores 75
and the overall score is their mean. -/
theorem overall_score_is_mean_of_groups_witness :
    compute_compatibility_score 25 25 190 25 25 75 =
      some (((75:ℚ) + 75 + 75 + 75) / 4) :=
  overall_score_is_mean_of_groups 25 25 190 25 25 75 75 75 75 75
    infer_morph_base infer_psych_25 infer_medical_25 infer_salary_75

/-- C4: the couple verdict is `High` exactly when both scores are greater
than or equal to the threshold 50, and `Low` otherwise; the threshold is
inclusive, so the pair (50, 50) yields `High`. -/
theorem verdict_iff_both_at_least_50 (a b : ℚ) :
    (coupleVerdict a b = "High" ↔ 50 ≤ a ∧ 50 ≤ b) ∧
    (coupleVerdict a b = "Low" ↔ ¬(50 ≤ a ∧ 50 ≤ b)) ∧
    coupleVerdict 50 50 = "High" := by
  refine ⟨?_, ?_, by decide⟩ <;>
    · unfold coupleVerdict
      split_ifs with h <;> simp [h]

/-- C4 witness: the verdict for the pair (50, 50) is `High`. -/
theorem verdict_iff_both_at_least_50_witness : coupleVerdict 50 50 = "High" :=
  (verdict_iff_both_at_least_50 50 50).2.2

/-- C5: for breakpoints a ≤ b ≤ c, the triangular membership function
always lies in [0, 1], equals 1 at b, is 0 for x ≤ a (unless a = b) and
for x ≥ c (unless b = c), is monotonically non-decreasing on [a, b], and
non-increasing on [b, c]. -/
theorem trimf_shape (a b c x y : ℚ) (hab : a ≤ b) (hbc : b ≤ c) :
    (0 ≤ trimf a b c x ∧ trimf a b c x ≤ 1) ∧
    trimf a b c b = 1 ∧
    (a ≠ b → x ≤ a → trimf a b c x = 0) ∧
    (b ≠ c → c ≤ x → trimf a b c x = 0) ∧
    (a ≤ x → x ≤ y → y ≤ b → trimf a b c x ≤ trimf a b c y) ∧
    (b ≤ x → x ≤ y → y ≤ c → trimf a b c y ≤ trimf a b c x) :=
  ⟨⟨trimf_nonneg a b c x, trimf_le_one a b c x⟩,
   trimf_peak a b c,
   fun hne hx => trimf_zero_left a b c x hab hne hx,
   fun hne hx => trimf_zero_right a b c x hbc hne hx,
   fun hax hxy hyb => trimf_mono a b c x y hax hxy hyb,
   fun hbx hxy hyc => trimf_anti a b c x y hbx hxy hyc⟩

/-- C5 witness: the triangle (0, 25, 50) satisfies 0 ≤ 25 ≤ 50 and its
membership function peaks at 1 on its middle breakpoint. -/
theorem trimf_shape_witness :
    (0:ℚ) ≤ 25 ∧ (25:ℚ) ≤ 50 ∧ trimf 0 25 50 25 = 1 :=
  ⟨by norm_num, by norm_num,
   (trimf_shape 0 25 50 10 20 (by norm_num) (by norm_num)).2.1⟩

/-- C6: a rule's firing strength is the minimum of the membership degrees
of its referenced (variable, category) pairs: it is a lower bound of every
referenced degree and is attained by one of them, for every antecedent
expression; concretely, the morphological rule `rule_skin_light` fires at
the minimum of its three category degrees. -/
theorem firing_strength_is_min (s h t : ℚ) {I : Type} (e : AntExpr I) (inp : I) :
    ((∀ d ∈ e.terms.map (fun f => f inp), e.eval inp ≤ d) ∧
      e.eval inp ∈ e.terms.map (fun f => f inp)) ∧
    rule_skin_light.strength (s, h, t) =
      min (memb skin_light s) (min (memb hair_blonde h) (memb height_tall t)) := by
  refine ⟨⟨AntExpr.eval_le_terms e inp, AntExpr.eval_mem_terms e inp⟩, ?_⟩
  show fmin (fmin (memb skin_light s) (memb hair_blonde h)) (memb height_tall t) = _
  rw [fmin_eq_min, fmin_eq_min, min_assoc]

/-- C7: permuting the order in which a group's rules are listed does not
change the crisp score produced by inference. -/
theorem infer_perm {I : Type} (rules rules' : List (FRule I))
    (hperm : rules.Perm rules') (inp : I) :
    infer rules inp = infer rules' inp := by
  have himp : impliedHeight rules inp = impliedHeight rules' inp :=
    funext fun y => by
      unfold impliedHeight
      rw [aggregatedStrength_perm hperm inp .low,
        aggregatedStrength_perm hperm inp .medium,
        aggregatedStrength_perm hperm inp .high]
  unfold infer
  rw [himp]

/-- C7 witness: swapping the first two psychological rules leaves the
inference output unchanged at temperament 20. -/
theorem infer_perm_witness :
    infer [rule_calm, rule_balanced, rule_angry] 20 =
      infer [rule_balanced, rule_calm, rule_angry] 20 :=
  infer_perm _ _ (List.Perm.swap rule_balanced rule_calm [rule_angry]) 20

/-- C8: evaluation is deterministic — two evaluations of the inference and
of the overall score on identical inputs against the fixed rule
configuration produce identical outputs; the embedded computation is a
pure function of its arguments and the immutable rule lists. -/
theorem evaluation_deterministic (skin hair ht temp blood educ : ℚ) :
    compute_compatibility_score skin hair ht temp blood educ =
      compute_compatibility_score skin hair ht temp blood educ ∧
    ∀ (I : Type) (rules : List (FRule I)) (inp : I),
      infer rules inp = infer rules inp :=
  ⟨rfl, fun _ _ _ => rfl⟩

/-- C9: the zero-aggregate degenerate case occurs at in-range inputs of
the public interface: at temperament 0 (and likewise 100) all three
temperament membership functions evaluate to 0, every psychological rule
has zero firing strength, and the aggregated implied set of the
psychological group is identically zero over the output universe. -/
theorem temperament_extremes_zero_aggregate :
    (memb temperament_calm 0 = 0 ∧ memb temperament_balanced 0 = 0 ∧
      memb temperament_angry 0 = 0) ∧
    (memb temperament_calm 100 = 0 ∧ memb temperament_balanced 100 = 0 ∧
      memb temperament_angry 100 = 0) ∧
    (∀ r ∈ psychologicalRules, r.strength 0 = 0) ∧
    (∀ r ∈ psychologicalRules, r.strength 100 = 0) ∧
    (∀ y ∈ compatUniverse, impliedHeight psychologicalRules 0 y = 0) ∧
    (∀ y ∈ compatUniverse, impliedHeight psychologicalRules 100 y = 0) :=
  ⟨by decide, by decide, by decide, by decide,
   fun y _ => impliedHeight_eq_zero (by decide) y,
   fun y _ => impliedHeight_eq_zero (by decide) y⟩

/-- C10: the discretized height universe is the integers 120 through 219
inclusive (`np.arange(120, 220, 1)` excludes 220), so the upper breakpoint
220 of the `tall` category lies outside the universe; the `tall`
membership degree is strictly positive (1/30) at the topmost universe
point 219, and a height of 220 falls outside the discretized universe. -/
theorem height_universe_excludes_tall_upper_breakpoint :
    (219:ℚ) ∈ heightUniverse ∧ (220:ℚ) ∉ heightUniverse ∧
    (120:ℚ) ∈ heightUniverse ∧ heightUniverse.length = 100 ∧
    (∀ z ∈ heightUniverse, 120 ≤ z ∧ z ≤ 219) ∧
    height_tall.c = 220 ∧
    memb height_tall 219 = 1/30 ∧ 0 < memb height_tall 219 := by
  have hm : memb height_tall 219 = 1/30 := by
    show trimf 170 190 220 219 = 1/30
    rw [trimf, if_neg (by norm_num), if_neg (by norm_num), if_pos (by norm_num)]
    norm_num
  exact ⟨by decide, by decide, by decide, by decide, by decide, rfl, hm,
    by rw [hm]; norm_num⟩

/-- C6 witness: instantiation of the firing-strength characterization at
the concrete morphological input (25, 25, 190). -/
theorem firing_strength_is_min_witness :
    rule_skin_light.strength (25, 25, 190) =
      min (memb skin_light 25) (min (memb hair_blonde 25) (memb height_tall 190)) :=
  (firing_strength_is_min 25 25 190 (AntExpr.term (memb temperament_calm)) 0).2

/-- C8 witness: instantiation of determinism at a concrete input. -/
theorem evaluation_deterministic_witness :
    compute_compatibility_score 25 25 190 25 25 75 =
      compute_compatibility_score 25 25 190 25 25 75 :=
  (evaluation_deterministic 25 25 190 25 25 75).1

/-- C9 witness: instantiation at temperament 0 — the `calm` membership
degree vanishes there. -/
theorem temperament_extremes_zero_aggregate_witness :
    memb temperament_calm 0 = 0 :=
  temperament_extremes_zero_aggregate.1.1
